import Mathlib

/-!
# EXAMPLE.c: the averaging routine `my_function2` and its driver `main`

Shallow embedding of `src/EXAMPLE.c`.

* `float` values are modelled by rationals, so every statement about the returned value is a
  statement about the exact arithmetic of the routine, not about rounding.
* `int` values are modelled by `Int`. The loop counter only takes values `0 ≤ i ≤ length`, so
  `i + 1` never leaves the range of a 32-bit `int`; `length / 5` and `i % (length / 5)` are the
  truncating operations `Int.tdiv` and `Int.tmod` of C.
* An integer remainder by zero and a read outside the array are undefined behaviour in C; the
  model stops with `Fault.divByZero`, respectively `Fault.outOfBounds`.
* Of the output only the "Result so far" lines are recorded, each with the value it prints and
  the loop index at which it was printed. The "Entered"/"Leaving" lines and the clock reading
  do not influence the result and are left out.
-/

namespace Example

/-- Ways in which a run of `my_function2` leaves defined behaviour. -/
inductive Fault where
  | divByZero
  | outOfBounds
  deriving DecidableEq

/-- One "Result so far" line: `value` is the number printed, `index` the value of the loop
counter `i` when it was printed. -/
structure ProgressLine where
  index : Int
  value : ℚ
  deriving DecidableEq

/-- Outcome of a completed call: the returned value and the progress lines in the order in
which they were printed. -/
structure Run where
  result : ℚ
  progress : List ProgressLine
  deriving DecidableEq

/-- The read `array[i]`: defined only for `0 ≤ i < ` number of elements of the array. -/
def read (array : List ℚ) (i : Int) : Option ℚ :=
  if i < 0 then none else array[i.toNat]?

/-- The loop `for (int i=0; i<length; i++) { ... }` of `my_function2`, started with the loop
counter at `i`, the accumulator at `result` and the lines printed so far in `out`. -/
def scan (array : List ℚ) (length : Int) (i : Int) (result : ℚ)
    (out : List ProgressLine) : Except Fault Run :=
  if i < length then
    -- `i % (length / 5)`: remainder by zero when `length / 5` truncates to `0`
    if length.tdiv 5 = 0 then
      .error .divByZero
    else
      -- `if (i%(length/5)==0) printf("Result so far: %.4f\n", result);`
      let out' := if i.tmod (length.tdiv 5) = 0 then out ++ [⟨i, result⟩] else out
      -- `result += array[i] / length;`
      match read array i with
      | none => .error .outOfBounds
      | some x => scan array length (i + 1) (result + x / (length : ℚ)) out'
  else
    .ok ⟨result, out⟩
termination_by (length - i).toNat
decreasing_by omega

/-- The function `float my_function2 (float* array, int length)`: `result = 0`, then the
loop, then `return result`. -/
def my_function2 (array : List ℚ) (length : Int) : Except Fault Run :=
  scan array length 0 0 []

/-- The array as `main` fills it: `size` elements with `array[i] = i`. -/
def fill (size : Int) : List ℚ :=
  (List.range size.toNat).map (fun (i : Nat) => (((i : Int)) : ℚ))

/-- The constant `int size = 640*480*30*2` of `main`. -/
def main_size : Int := 640 * 480 * 30 * 2

/-- The call `my_function2 (array, size)` that `main` makes on the array it has filled. -/
def main : Except Fault Run :=
  my_function2 (fill main_size) main_size

/-- Largest value of a 32-bit `int`. -/
def INT_MAX : Int := 2147483647

/-- Specification: the arithmetic mean of the first `length` elements, that is their sum
divided by their count. -/
def mean (array : List ℚ) (length : Int) : ℚ :=
  (array.take length.toNat).sum / (length : ℚ)

/-- Specification of the trace: the progress lines printed while the loop counter runs through
`i, …, i + k - 1` from the accumulator value `result`; one line for each index whose remainder
by `length / 5` is zero, showing the sum accumulated before that index. -/
def checkpoints (array : List ℚ) (length : Int) (i k : Nat) (result : ℚ) : List ProgressLine :=
  ((List.range' i k).filter (fun (j : Nat) => (j : Int).tmod (length.tdiv 5) = 0)).map
    (fun (j : Nat) => ⟨(j : Int), result + (((array.drop i).take (j - i)).map (· / (length : ℚ))).sum⟩)

/-! ## The loop -/

/-- When the loop test `i < length` fails the loop ends and the accumulator is returned. -/
theorem scan_exit (array : List ℚ) (length i : Int) (result : ℚ) (out : List ProgressLine)
    (h : ¬ i < length) : scan array length i result out = .ok ⟨result, out⟩ := by
  rw [scan, if_neg h]

/-- An iteration with `length / 5 = 0` takes a remainder by zero. -/
theorem scan_zero_interval (array : List ℚ) (length i : Int) (result : ℚ)
    (out : List ProgressLine) (h : i < length) (hq : length.tdiv 5 = 0) :
    scan array length i result out = .error .divByZero := by
  rw [scan, if_pos h, if_pos hq]

/-- An iteration whose index is outside the array reads out of bounds. -/
theorem scan_unreadable (array : List ℚ) (length i : Int) (result : ℚ)
    (out : List ProgressLine) (h : i < length) (hq : length.tdiv 5 ≠ 0)
    (hx : read array i = none) :
    scan array length i result out = .error .outOfBounds := by
  rw [scan, if_pos h, if_neg hq]
  simp only [hx]

/-- One defined iteration of the loop body. -/
theorem scan_step (array : List ℚ) (length i : Int) (result : ℚ)
    (out : List ProgressLine) (x : ℚ) (h : i < length) (hq : length.tdiv 5 ≠ 0)
    (hx : read array i = some x) :
    scan array length i result out =
      scan array length (i + 1) (result + x / (length : ℚ))
        (if i.tmod (length.tdiv 5) = 0 then out ++ [⟨i, result⟩] else out) := by
  rw [scan, if_pos h, if_neg hq]
  simp only [hx]

/-- Loop invariant in closed form: with a non-zero interval and enough elements, the loop
started at index `i` with `k` iterations to go completes, adds the remaining quotients to the
accumulator and appends exactly the lines of `checkpoints`. -/
theorem scan_spec (array : List ℚ) (length : Int) (hq : length.tdiv 5 ≠ 0)
    (hlen : length ≤ array.length) :
    ∀ (k i : Nat) (result : ℚ) (out : List ProgressLine), (i : Int) + k = length →
      scan array length i result out =
        .ok ⟨result + (((array.drop i).take k).map (· / (length : ℚ))).sum,
             out ++ checkpoints array length i k result⟩ := by
  intro k
  induction k with
  | zero =>
    intro i result out hik
    rw [scan_exit _ _ _ _ _ (by omega)]
    simp [checkpoints]
  | succ k ih =>
    intro i result out hik
    have hi : i < array.length := by omega
    have hx : read array (i : Int) = some array[i] := by
      simp [read, List.getElem?_eq_getElem hi]
    rw [scan_step array length i result out array[i] (by omega) hq hx]
    have hcast : ((i : Int) + 1) = ((i + 1 : Nat) : Int) := by push_cast; ring
    rw [hcast, ih (i + 1) _ _ (by push_cast; omega)]
    have hdrop : array.drop i = array[i] :: array.drop (i + 1) := by
      exact List.drop_eq_getElem_cons hi
    have htail : checkpoints array length (i + 1) k (result + array[i] / (length : ℚ)) =
        ((List.range' (i + 1) k).filter
          (fun (j : Nat) => (j : Int).tmod (length.tdiv 5) = 0)).map
          (fun (j : Nat) => (⟨(j : Int), result +
            (((array.drop i).take (j - i)).map (· / (length : ℚ))).sum⟩ : ProgressLine)) := by
      unfold checkpoints
      apply List.map_congr_left
      intro j hj
      have hj' : i + 1 ≤ j := by
        have := (List.mem_filter.mp hj).1
        rw [List.mem_range'_1] at this
        exact this.1
      obtain ⟨d, rfl⟩ : ∃ d, j = i + 1 + d := ⟨j - (i + 1), by omega⟩
      have e1 : i + 1 + d - (i + 1) = d := by omega
      have e2 : i + 1 + d - i = d + 1 := by omega
      rw [e1, e2, hdrop]
      simp only [List.take_succ_cons, List.map_cons, List.sum_cons, add_assoc]
    congr 1
    congr 1
    · rw [hdrop]
      simp only [List.take_succ_cons, List.map_cons, List.sum_cons, add_assoc]
    · rw [htail]
      unfold checkpoints
      rw [List.range'_succ, List.filter_cons]
      by_cases hc : (i : Int).tmod (length.tdiv 5) = 0
      · simp [hc]
      · simp [hc]

/-- With a non-zero interval the loop never takes a remainder by zero, whatever the array. -/
theorem scan_no_div_fault (array : List ℚ) (length : Int) (hq : length.tdiv 5 ≠ 0) :
    ∀ (k : Nat) (i : Int) (result : ℚ) (out : List ProgressLine), (length - i).toNat ≤ k →
      scan array length i result out ≠ .error .divByZero := by
  intro k
  induction k with
  | zero =>
    intro i result out hk
    rw [scan_exit _ _ _ _ _ (by omega)]
    simp
  | succ k ih =>
    intro i result out hk
    by_cases h : i < length
    · cases hx : read array i with
      | none =>
        rw [scan_unreadable _ _ _ _ _ h hq hx]
        simp
      | some x =>
        rw [scan_step _ _ _ _ _ x h hq hx]
        exact ih _ _ _ (by omega)
    · rw [scan_exit _ _ _ _ _ h]
      simp

/-! ## Arithmetic of the interval `length / 5` -/

theorem sum_map_div (l : List ℚ) (c : ℚ) : (l.map (· / c)).sum = l.sum / c := by
  induction l with
  | nil => simp
  | cons a l ih => simp only [List.map_cons, List.sum_cons, ih, add_div]

theorem tdiv_five_cast (n : Nat) : (n : Int).tdiv 5 = ((n / 5 : Nat) : Int) := by
  simpa using (Int.ofNat_tdiv n 5).symm

theorem tmod_cast (j q : Nat) : (j : Int).tmod (q : Int) = ((j % q : Nat) : Int) :=
  (Int.ofNat_tmod j q).symm

theorem tdiv_tmod_toNat (length : Int) (h0 : 0 ≤ length) :
    length.tdiv 5 = ((length.toNat / 5 : Nat) : Int) ∧
    length.tmod 5 = ((length.toNat % 5 : Nat) : Int) := by
  obtain ⟨n, rfl⟩ := Int.eq_ofNat_of_zero_le h0
  refine ⟨?_, ?_⟩
  · simpa using tdiv_five_cast n
  · simpa using tmod_cast n 5

theorem tdiv_interval_toNat (length : Int) (h0 : 0 ≤ length) :
    length.tdiv (length.tdiv 5) = ((length.toNat / (length.toNat / 5) : Nat) : Int) := by
  obtain ⟨n, rfl⟩ := Int.eq_ofNat_of_zero_le h0
  rw [tdiv_five_cast, Int.toNat_ofNat]
  exact (Int.ofNat_tdiv n (n / 5)).symm

theorem tdiv_interval_nonneg_of_nonpos (length : Int) (h : length ≤ 0) :
    0 ≤ length.tdiv (length.tdiv 5) := by
  obtain ⟨a, rfl⟩ : ∃ a : Int, length = -a := ⟨-length, by omega⟩
  rw [Int.neg_tdiv a 5, Int.neg_tdiv_neg]
  exact Int.tdiv_nonneg (by omega) (Int.tdiv_nonneg (by omega) (by omega))

theorem five_le_interval_ne_zero (length : Int) (h5 : 5 ≤ length) : length.tdiv 5 ≠ 0 := by
  rw [Int.tdiv_eq_ediv (by omega) (by omega)]
  omega

theorem small_interval_eq_zero (length : Int) (h1 : 1 ≤ length) (h4 : length ≤ 4) :
    length.tdiv 5 = 0 :=
  Int.tdiv_eq_zero_of_lt (by omega) (by omega)

/-! ## Multiples of the interval below `length` -/

theorem filter_mod_range_self (q : Nat) (hq : 0 < q) :
    (List.range q).filter (fun j => j % q = 0) = [0] := by
  obtain ⟨m, rfl⟩ : ∃ m, q = m + 1 := ⟨q - 1, by omega⟩
  rw [List.range_succ_eq_map, List.filter_cons]
  simp only [Nat.zero_mod, decide_True, if_true, List.cons.injEq, true_and]
  rw [List.filter_eq_nil_iff]
  intro a ha
  simp only [List.mem_map, List.mem_range] at ha
  obtain ⟨b, hb, rfl⟩ := ha
  have : (b + 1) % (m + 1) = b + 1 := Nat.mod_eq_of_lt (by omega)
  simp [this]

theorem filter_mod_range_mul (q : Nat) (hq : 0 < q) (k : Nat) :
    (List.range (k * q)).filter (fun j => j % q = 0) = (List.range k).map (· * q) := by
  induction k with
  | zero => simp
  | succ k ih =>
    rw [Nat.succ_mul, List.range_add, List.filter_append, ih, List.range_succ, List.map_append,
      List.filter_map]
    congr 1
    have hp : ((fun j => decide (j % q = 0)) ∘ fun x => k * q + x) =
        fun j => decide (j % q = 0) := by
      funext x
      simp [Function.comp, Nat.mul_add_mod_of_lt, Nat.add_mod]
    rw [hp, filter_mod_range_self q hq]
    simp

theorem five_multiples (n : Nat) (h5 : 5 ≤ n) (hmod : n % 5 = 0) :
    (List.range n).filter (fun j => j % (n / 5) = 0) =
      [0, n / 5, 2 * (n / 5), 3 * (n / 5), 4 * (n / 5)] := by
  have hq : 0 < n / 5 := by omega
  have hn : n = 5 * (n / 5) := by omega
  have h := filter_mod_range_mul (n / 5) hq 5
  rw [← hn] at h
  rw [h]
  simp [List.range_succ]

theorem ceil_div_lt (q b : Nat) (hb : b < q) :
    (b + q - 1) / q = if b = 0 then 0 else 1 := by
  by_cases h0 : b = 0
  · subst h0
    simp only [zero_add, if_true]
    exact Nat.div_eq_of_lt (by omega)
  · rw [if_neg h0]
    have e : b + q - 1 = (b - 1) + q := by omega
    rw [e, Nat.add_div_right _ (by omega), Nat.div_eq_of_lt (by omega)]

/-- The multiples of `q` below `n` are `⌈n / q⌉` in number. -/
theorem count_multiples (q : Nat) (hq : 0 < q) (n : Nat) :
    ((List.range n).filter (fun j => j % q = 0)).length = (n + q - 1) / q := by
  induction n with
  | zero =>
    rw [ceil_div_lt q 0 hq]
    simp
  | succ n ih =>
    rw [List.range_succ, List.filter_append, List.length_append, ih]
    obtain ⟨a, b, hb, rfl⟩ : ∃ a b, b < q ∧ n = q * a + b :=
      ⟨n / q, n % q, Nat.mod_lt n hq, (Nat.div_add_mod n q).symm⟩
    have e1 : q * a + b + q - 1 = q * a + (b + q - 1) := by omega
    have e2 : q * a + b + 1 + q - 1 = q * a + (b + q) := by omega
    have e3 : (b + q) / q = 1 := by
      rw [Nat.add_div_right _ hq, Nat.div_eq_of_lt hb]
    have e4 : (q * a + b) % q = b := by
      rw [Nat.mul_add_mod, Nat.mod_eq_of_lt hb]
    rw [e1, e2, Nat.mul_add_div hq, Nat.mul_add_div hq, e3, ceil_div_lt q b hb]
    by_cases h0 : b = 0
    · simp [List.filter_cons, e4, h0]
    · simp [List.filter_cons, e4, h0]

theorem count_five_le (n : Nat) (h5 : 5 ≤ n) :
    ((List.range n).filter (fun j => j % (n / 5) = 0)).length =
      5 + (n % 5 + n / 5 - 1) / (n / 5) := by
  have hq : 0 < n / 5 := by omega
  rw [count_multiples _ hq]
  have e : n + n / 5 - 1 = n / 5 * 5 + (n % 5 + n / 5 - 1) := by omega
  rw [e, Nat.mul_add_div hq]

theorem count_le_floor_succ (n : Nat) (h5 : 5 ≤ n) :
    ((List.range n).filter (fun j => j % (n / 5) = 0)).length ≤ n / (n / 5) + 1 := by
  have hq : 0 < n / 5 := by omega
  rw [count_multiples _ hq, ← Nat.add_div_right _ hq]
  exact Nat.div_le_div_right (by omega)

theorem extra_lt_five (n : Nat) (h5 : 5 ≤ n) : (n % 5 + n / 5 - 1) / (n / 5) < 5 := by
  have hq : 0 < n / 5 := by omega
  rw [Nat.div_lt_iff_lt_mul hq]
  omega

theorem extra_eq_zero_iff (n : Nat) (h5 : 5 ≤ n) :
    (n % 5 + n / 5 - 1) / (n / 5) = 0 ↔ n % 5 = 0 := by
  have hq : 0 < n / 5 := by omega
  rw [Nat.div_eq_zero_iff hq]
  omega

theorem ceil_eq_extra (r q : Nat) (hq : 0 < q) :
    ⌈(r : ℚ) / (q : ℚ)⌉ = (((r + q - 1) / q : Nat) : Int) := by
  have hdm := Nat.div_add_mod (r + q - 1) q
  have hlt := Nat.mod_lt (r + q - 1) hq
  generalize (r + q - 1) / q = c at hdm ⊢
  generalize hP : q * c = P at hdm
  have h1 : P < r + q := by omega
  have h2 : r ≤ P := by omega
  have hq' : (0 : ℚ) < q := by exact_mod_cast hq
  have h1' : (q : ℚ) * c < r + q := by
    have : ((q * c : Nat) : ℚ) < ((r + q : Nat) : ℚ) := by rw [hP]; exact_mod_cast h1
    simpa using this
  have h2' : (r : ℚ) ≤ q * c := by
    have : ((r : Nat) : ℚ) ≤ ((q * c : Nat) : ℚ) := by rw [hP]; exact_mod_cast h2
    simpa using this
  rw [Int.ceil_eq_iff]
  constructor
  · rw [lt_div_iff₀ hq']
    push_cast
    linarith
  · rw [div_le_iff₀ hq']
    push_cast
    linarith

/-! ## The progress lines of a complete scan -/

theorem checkpoints_index (array : List ℚ) (n : Nat) (result : ℚ) :
    (checkpoints array (n : Int) 0 n result).map (·.index) =
      ((List.range n).filter (fun j => j % (n / 5) = 0)).map (fun (j : Nat) => (j : Int)) := by
  unfold checkpoints
  rw [List.map_map, List.range_eq_range']
  have hp : (fun (j : Nat) => decide ((j : Int).tmod ((n : Int).tdiv 5) = 0)) =
      fun j => decide (j % (n / 5) = 0) := by
    funext j
    rw [tdiv_five_cast, tmod_cast]
    simp only [Int.natCast_eq_zero]
  rw [hp]
  rfl

theorem checkpoints_head (array : List ℚ) (length : Int) (n : Nat) (hn : 0 < n) (result : ℚ) :
    (checkpoints array length 0 n result).head? = some ⟨0, result⟩ := by
  obtain ⟨m, rfl⟩ : ∃ m, n = m + 1 := ⟨n - 1, by omega⟩
  unfold checkpoints
  rw [List.range'_succ, List.filter_cons]
  simp

theorem progress_index (array : List ℚ) (length : Int) (h0 : 0 ≤ length) (result : ℚ) :
    (checkpoints array length 0 length.toNat result).map (·.index) =
      ((List.range length.toNat).filter (fun j => j % (length.toNat / 5) = 0)).map
        (fun (j : Nat) => (j : Int)) := by
  obtain ⟨n, rfl⟩ := Int.eq_ofNat_of_zero_le h0
  simpa using checkpoints_index array n result

theorem progress_length (array : List ℚ) (length : Int) (h0 : 0 ≤ length) (result : ℚ) :
    (checkpoints array length 0 length.toNat result).length =
      ((List.range length.toNat).filter (fun j => j % (length.toNat / 5) = 0)).length := by
  have h := congrArg List.length (progress_index array length h0 result)
  simpa using h

theorem progress_length_dvd (array : List ℚ) (length : Int) (result : ℚ) :
    (checkpoints array length 0 length.toNat result).length =
      ((List.range length.toNat).filter
        (fun (i : Nat) => length.tdiv 5 ∣ (i : Int))).length := by
  unfold checkpoints
  rw [List.length_map, List.range_eq_range']
  congr 2
  funext j
  simp only [Int.dvd_iff_tmod_eq_zero]

/-! ## The three regimes of `my_function2` -/

/-- For `length ≥ 5` and an array of at least `length` elements the call completes; it returns
the mean of the first `length` elements and prints the lines of `checkpoints`. -/
theorem my_function2_ok (array : List ℚ) (length : Int) (h5 : 5 ≤ length)
    (hlen : length ≤ array.length) :
    my_function2 array length =
      .ok ⟨(array.take length.toNat).sum / (length : ℚ),
           checkpoints array length 0 length.toNat 0⟩ := by
  have h := scan_spec array length (five_le_interval_ne_zero length h5) hlen length.toNat 0 0 []
    (by omega)
  simp only [Nat.cast_zero, List.drop_zero, zero_add, List.nil_append, sum_map_div] at h
  exact h

/-- For `length ≤ 0` the loop test fails at once: no division, no line, result `0`. -/
theorem my_function2_nonpos (array : List ℚ) (length : Int) (h : length ≤ 0) :
    my_function2 array length = .ok ⟨0, []⟩ :=
  scan_exit array length 0 0 [] (by omega)

/-- For `1 ≤ length ≤ 4` the first iteration takes a remainder by `length / 5 = 0`. -/
theorem my_function2_small (array : List ℚ) (length : Int) (h1 : 1 ≤ length) (h4 : length ≤ 4) :
    my_function2 array length = .error .divByZero :=
  scan_zero_interval array length 0 0 [] (by omega) (small_interval_eq_zero length h1 h4)

theorem fill_length (size : Int) (h0 : 0 ≤ size) : ((fill size).length : Int) = size := by
  simp [fill, Int.toNat_of_nonneg h0]

theorem main_size_eq : main_size = 18432000 := by
  decide

theorem ramp_sum (m : Nat) :
    ((List.range m).map (fun (i : Nat) => (((i : Int)) : ℚ))).sum =
      (m : ℚ) * ((m : ℚ) - 1) / 2 := by
  induction m with
  | zero => simp
  | succ m ih =>
    rw [List.range_succ, List.map_append, List.sum_append, ih]
    simp only [List.map_cons, List.map_nil, List.sum_cons, List.sum_nil]
    push_cast
    ring

/-! ## The mean on lengths of five and more

On these lengths the routine does what its comment says ("Calculates average"). -/

/-- For `length ≥ 5` the returned value is the arithmetic mean of the first `length`
elements. -/
theorem my_function2_mean (array : List ℚ) (length : Int) (h5 : 5 ≤ length)
    (hlen : length ≤ (array.length : Int)) :
    ∃ run, my_function2 array length = .ok run ∧ run.result = mean array length :=
  ⟨_, my_function2_ok array length h5 hlen, rfl⟩

/-- The scenario `samples = [1, 2, 3, 4, 5]`, `length = 5` returns `3`. -/
theorem mean_one_to_five :
    ∃ run, my_function2 [1, 2, 3, 4, 5] 5 = .ok run ∧ run.result = 3 := by
  refine ⟨_, my_function2_ok _ 5 (by decide) (by decide), ?_⟩
  have h : (5 : Int).toNat = 5 := rfl
  simp only [h]
  norm_num

/-- For `length ≥ 5`, if the first `length` elements all equal `c` the returned value is `c`. -/
theorem constant_mean (array : List ℚ) (length : Int) (c : ℚ) (h5 : 5 ≤ length)
    (hlen : length ≤ (array.length : Int))
    (hc : ∀ x ∈ array.take length.toNat, x = c) :
    ∃ run, my_function2 array length = .ok run ∧ run.result = c := by
  refine ⟨_, my_function2_ok array length h5 hlen, ?_⟩
  have htake : array.take length.toNat = List.replicate length.toNat c := by
    rw [List.eq_replicate_iff]
    refine ⟨?_, hc⟩
    rw [List.length_take]
    omega
  have hcast : ((length.toNat : Nat) : ℚ) = (length : ℚ) := by
    have : ((length.toNat : Nat) : Int) = length := Int.toNat_of_nonneg (by omega)
    exact_mod_cast this
  have hne : (length : ℚ) ≠ 0 := by
    have : length ≠ 0 := by omega
    exact_mod_cast this
  simp only []
  rw [htake, List.sum_replicate, nsmul_eq_mul, hcast]
  field_simp

/-- For `n ≥ 5`, on the array `0, 1, …, n - 1` the returned value is `(n - 1) / 2`. -/
theorem ramp_mean (n : Int) (h5 : 5 ≤ n) :
    ∃ run, my_function2 (fill n) n = .ok run ∧ run.result = ((n : ℚ) - 1) / 2 := by
  have h0 : 0 ≤ n := by omega
  have hl := fill_length n h0
  refine ⟨_, my_function2_ok (fill n) n h5 (le_of_eq hl.symm), ?_⟩
  have htake : (fill n).take n.toNat = fill n := by
    apply List.take_of_length_le
    omega
  have hcast : ((n.toNat : Nat) : ℚ) = (n : ℚ) := by
    have : ((n.toNat : Nat) : Int) = n := Int.toNat_of_nonneg h0
    exact_mod_cast this
  have hne : (n : ℚ) ≠ 0 := by
    have : n ≠ 0 := by omega
    exact_mod_cast this
  simp only []
  rw [htake]
  unfold fill
  rw [ramp_sum, hcast]
  field_simp
  ring

/-- The size `640*480*30*2` of `main` fits a 32-bit `int`, and the value `main` reports is
`9215999.5` under exact arithmetic. -/
theorem main_result :
    main_size ≤ INT_MAX ∧ ∃ run, main = .ok run ∧ run.result = 9215999.5 := by
  refine ⟨by decide, ?_⟩
  obtain ⟨run, hrun, hres⟩ := ramp_mean main_size (by decide)
  refine ⟨run, hrun, ?_⟩
  rw [hres, main_size_eq]
  norm_num

/-! ## The claims -/

/-- C1: at `array = [1, 2]`, `length = 2` the call does not return the mean `3/2` of the two
elements: the first iteration takes the remainder `0 % (2/5)`, a remainder by zero. -/
theorem mean_of_two_faults :
    my_function2 [1, 2] 2 = .error .divByZero ∧ mean [1, 2] 2 = 3 / 2 := by
  refine ⟨my_function2_small _ 2 (by decide) (by decide), ?_⟩
  have h : (2 : Int).toNat = 2 := rfl
  simp only [mean, h]
  norm_num

/-- C2: the precondition (a positive `length`, an array of at least `length` elements) does not
exclude a division by zero: at `array = [1, 2, 3, 4]`, `length = 4` the divisor `length / 5` of
the checkpoint test is zero. -/
theorem precondition_not_sufficient :
    (0 : Int) < 4 ∧ (4 : Int) ≤ (([1, 2, 3, 4] : List ℚ).length : Int) ∧
      (4 : Int).tdiv 5 = 0 ∧ my_function2 [1, 2, 3, 4] 4 = .error .divByZero :=
  ⟨by decide, by decide, by decide, my_function2_small _ 4 (by decide) (by decide)⟩

/-- C3: for `length = 1` and every one-element array `[x]` the call does not return `x`; it
takes a remainder by zero in its only iteration. -/
theorem single_element_faults (x : ℚ) : my_function2 [x] 1 = .error .divByZero :=
  my_function2_small _ 1 (by decide) (by decide)

/-- C4, counterexample: at `length = 0` (array `[1, 2, 3]`) the call returns `0` without
printing a progress line; it does not divide by zero. -/
theorem zero_length_returns :
    my_function2 [1, 2, 3] 0 = .ok ⟨0, []⟩ ∧ my_function2 [1, 2, 3] 0 ≠ .error .divByZero := by
  rw [my_function2_nonpos _ 0 (le_refl 0)]
  simp

/-- C4, amended: for `length = 0` and any array the loop body never runs; the call returns `0`
and prints no progress line. -/
theorem zero_length_no_division (array : List ℚ) :
    my_function2 array 0 = .ok ⟨0, []⟩ :=
  my_function2_nonpos array 0 (le_refl 0)

/-- C5, counterexample: at `length = 11` the interval is `11 / 5 = 2`, six progress lines are
printed (indices 0, 2, 4, 6, 8, 10), and `floor(11 / 2) = 5`. -/
theorem progress_count_exceeds_floor :
    ∃ run, my_function2 [1, 1, 1, 1, 1, 1, 1, 1, 1, 1, 1] 11 = .ok run ∧
      run.progress.length = 6 ∧ (11 : Int).tdiv ((11 : Int).tdiv 5) = 5 ∧
      ¬ ((run.progress.length : Int) ≤ (11 : Int).tdiv ((11 : Int).tdiv 5)) := by
  refine ⟨_, my_function2_ok _ 11 (by decide) (by decide), ?_⟩
  have hl : (checkpoints [1, 1, 1, 1, 1, 1, 1, 1, 1, 1, 1] 11 0 (11 : Int).toNat 0).length
      = 6 := by
    rw [progress_length _ 11 (by decide) 0]
    decide
  simp only []
  rw [hl]
  decide

/-- C5, amended: for every length whose interval `length / 5` is non-zero and every array of at
least `length` elements, the call completes, the number of progress lines equals the number of
indices `0 ≤ i < length` that are multiples of `length / 5`, and that number is at most
`floor(length / (length / 5)) + 1`. -/
theorem progress_count_bound (array : List ℚ) (length : Int) (hq : length.tdiv 5 ≠ 0)
    (hlen : length ≤ (array.length : Int)) :
    ∃ run, my_function2 array length = .ok run ∧
      run.progress.length =
        ((List.range length.toNat).filter
          (fun (i : Nat) => length.tdiv 5 ∣ (i : Int))).length ∧
      (run.progress.length : Int) ≤ length.tdiv (length.tdiv 5) + 1 := by
  by_cases hneg : length ≤ 0
  · refine ⟨_, my_function2_nonpos array length hneg, ?_, ?_⟩
    · have : length.toNat = 0 := by omega
      simp [this]
    · have := tdiv_interval_nonneg_of_nonpos length hneg
      simp only [List.length_nil, Nat.cast_zero]
      omega
  · have h5 : 5 ≤ length := by
      by_contra hlt
      exact hq (Int.tdiv_eq_zero_of_lt (by omega) (by omega))
    have h0 : 0 ≤ length := by omega
    refine ⟨_, my_function2_ok array length h5 hlen, progress_length_dvd array length 0, ?_⟩
    simp only []
    rw [progress_length array length h0 0]
    have hb := count_le_floor_succ length.toNat (by omega)
    rw [tdiv_interval_toNat length h0]
    exact_mod_cast hb

/-- C5, witness of the amended claim at `length = 11`. -/
theorem progress_count_bound_witness :
    (11 : Int).tdiv 5 ≠ 0 ∧
    (11 : Int) ≤ (([1, 1, 1, 1, 1, 1, 1, 1, 1, 1, 1] : List ℚ).length : Int) ∧
    ∃ run, my_function2 [1, 1, 1, 1, 1, 1, 1, 1, 1, 1, 1] 11 = .ok run ∧
      run.progress.length =
        ((List.range (11 : Int).toNat).filter
          (fun (i : Nat) => (11 : Int).tdiv 5 ∣ (i : Int))).length ∧
      (run.progress.length : Int) ≤ (11 : Int).tdiv ((11 : Int).tdiv 5) + 1 :=
  ⟨by decide, by decide,
    progress_count_bound [1, 1, 1, 1, 1, 1, 1, 1, 1, 1, 1] 11 (by decide) (by decide)⟩

/-- C6, counterexample: at `length = 6` the interval is `6 / 5 = 1` and six progress lines are
printed, not five. -/
theorem six_progress_lines :
    (5 : Int) ≤ 6 ∧ ∃ run, my_function2 [1, 1, 1, 1, 1, 1] 6 = .ok run ∧
      run.progress.length = 6 ∧ run.progress.length ≠ 5 := by
  refine ⟨by decide, _, my_function2_ok _ 6 (by decide) (by decide), ?_⟩
  have hl : (checkpoints [1, 1, 1, 1, 1, 1] 6 0 (6 : Int).toNat 0).length = 6 := by
    rw [progress_length _ 6 (by decide) 0]
    decide
  simp only []
  rw [hl]
  decide

/-- C6, amended: for every `length ≥ 5` that is a multiple of 5 and every array of at least
`length` elements, the call completes and prints exactly five progress lines, at the indices
`0`, `length/5`, `2*length/5`, `3*length/5` and `4*length/5`. -/
theorem five_progress_lines (array : List ℚ) (length : Int) (h5 : 5 ≤ length)
    (hdvd : (5 : Int) ∣ length) (hlen : length ≤ (array.length : Int)) :
    ∃ run, my_function2 array length = .ok run ∧
      run.progress.length = 5 ∧
      run.progress.map (·.index) =
        [0, length.tdiv 5, 2 * length.tdiv 5, 3 * length.tdiv 5, 4 * length.tdiv 5] := by
  have h0 : 0 ≤ length := by omega
  have hmod : length.toNat % 5 = 0 := by omega
  have hidx := progress_index array length h0 0
  rw [five_multiples length.toNat (by omega) hmod] at hidx
  refine ⟨_, my_function2_ok array length h5 hlen, ?_, ?_⟩
  · have := congrArg List.length hidx
    simpa using this
  · simp only []
    rw [hidx, (tdiv_tmod_toNat length h0).1]
    simp

/-- C6, witness of the amended claim: the run of `main`, with `length = 18432000`, prints five
progress lines, at the indices 0, 3686400, 7372800, 11059200 and 14745600. -/
theorem five_progress_lines_witness :
    (5 : Int) ≤ main_size ∧ (5 : Int) ∣ main_size ∧
    main_size ≤ ((fill main_size).length : Int) ∧
    ∃ run, main = .ok run ∧ run.progress.length = 5 ∧
      run.progress.map (·.index) = [0, 3686400, 7372800, 11059200, 14745600] := by
  have hlen : main_size ≤ ((fill main_size).length : Int) :=
    le_of_eq (fill_length main_size (by decide)).symm
  have h := five_progress_lines (fill main_size) main_size (by decide) (by decide) hlen
  have hq : main_size.tdiv 5 = 3686400 := by decide
  rw [hq] at h
  exact ⟨by decide, by decide, hlen, h⟩

/-- C7: with the three elements `[c, c, c]` and `length = 3` the call does not return `c`; it
takes a remainder by zero in its first iteration. -/
theorem constant_of_three_faults (c : ℚ) : my_function2 [c, c, c] 3 = .error .divByZero :=
  my_function2_small _ 3 (by decide) (by decide)

/-- C8: with `n = 4` and the array `[0, 1, 2, 3]` that the filling loop of `main` produces, the
call does not return `(n - 1) / 2 = 3/2`; it takes a remainder by zero. -/
theorem ramp_of_four_faults :
    fill 4 = [0, 1, 2, 3] ∧ my_function2 (fill 4) 4 = .error .divByZero := by
  refine ⟨?_, my_function2_small _ 4 (by decide) (by decide)⟩
  simp [fill, List.range_succ]

/-- C9: for every `length` (in particular every 32-bit `int`) and every array, the call takes a
remainder by zero exactly when `1 ≤ length ≤ 4`; for `length ≤ 0` it returns `0` with no
progress line, the loop body never running; for `length ≥ 5` both divisors, `length / 5` and
`length`, are non-zero. -/
theorem division_by_zero_iff_small_length (array : List ℚ) (length : Int) :
    (my_function2 array length = .error .divByZero ↔ 1 ≤ length ∧ length ≤ 4) ∧
    (length ≤ 0 → my_function2 array length = .ok ⟨0, []⟩) ∧
    (5 ≤ length → length.tdiv 5 ≠ 0 ∧ (length : ℚ) ≠ 0) := by
  refine ⟨⟨?_, ?_⟩, ?_, ?_⟩
  · intro hf
    by_contra hc
    by_cases hneg : length ≤ 0
    · rw [my_function2_nonpos array length hneg] at hf
      simp at hf
    · exact scan_no_div_fault array length (five_le_interval_ne_zero length (by omega)) _ 0 0 []
        (le_refl _) hf
  · rintro ⟨h1, h4⟩
    exact my_function2_small array length h1 h4
  · intro hneg
    exact my_function2_nonpos array length hneg
  · intro h5
    refine ⟨five_le_interval_ne_zero length h5, ?_⟩
    have : length ≠ 0 := by omega
    exact_mod_cast this

/-- C9, witness: the three regimes at `length = 3`, `length = -2` and `length = 7`. -/
theorem division_by_zero_iff_small_length_witness :
    my_function2 [1, 2, 3] 3 = .error .divByZero ∧
    my_function2 [1, 2, 3] (-2) = .ok ⟨0, []⟩ ∧
    ((7 : Int).tdiv 5 ≠ 0 ∧ ((7 : Int) : ℚ) ≠ 0) :=
  ⟨(division_by_zero_iff_small_length [1, 2, 3] 3).1.2 ⟨by decide, by decide⟩,
    (division_by_zero_iff_small_length [1, 2, 3] (-2)).2.1 (by decide),
    (division_by_zero_iff_small_length [] 7).2.2 (by decide)⟩

/-- C10: for every `length ≥ 5` and every array of at least `length` elements, with
`q = length / 5` and `r = length % 5`, the call completes and prints exactly `5 + ⌈r / q⌉`
progress lines; that number lies between 5 and 9, it is 5 exactly when `length` is a multiple
of 5, and the first line is printed at `i = 0` and shows the running sum `0`. -/
theorem progress_count_formula (array : List ℚ) (length : Int) (h5 : 5 ≤ length)
    (hlen : length ≤ (array.length : Int)) :
    ∃ run, my_function2 array length = .ok run ∧
      (run.progress.length : Int) =
        5 + ⌈((length.tmod 5 : Int) : ℚ) / ((length.tdiv 5 : Int) : ℚ)⌉ ∧
      5 ≤ run.progress.length ∧ run.progress.length ≤ 9 ∧
      (run.progress.length = 5 ↔ (5 : Int) ∣ length) ∧
      run.progress.head? = some ⟨0, 0⟩ := by
  refine ⟨_, my_function2_ok array length h5 hlen, ?_⟩
  have h0 : 0 ≤ length := by omega
  have hn : 5 ≤ length.toNat := by omega
  obtain ⟨hdiv, hmod⟩ := tdiv_tmod_toNat length h0
  have hcount := (progress_length array length h0 0).trans (count_five_le _ hn)
  have hlt := extra_lt_five _ hn
  have hz := extra_eq_zero_iff _ hn
  simp only []
  have hge : 5 ≤ (checkpoints array length 0 length.toNat 0).length := by
    rw [hcount]
    exact Nat.le_add_right 5 _
  have hle : (checkpoints array length 0 length.toNat 0).length ≤ 9 := by
    rw [hcount]
    exact Nat.add_le_add_left (Nat.le_of_lt_succ hlt) 5
  refine ⟨?_, hge, hle, ?_, checkpoints_head array length _ (by omega) 0⟩
  · rw [hcount, hdiv, hmod]
    have := ceil_eq_extra (length.toNat % 5) (length.toNat / 5) (by omega)
    simp only [Int.cast_natCast]
    rw [this]
    push_cast
    rfl
  · rw [hcount, Int.dvd_iff_tmod_eq_zero, hmod]
    constructor
    · intro h
      have : length.toNat % 5 = 0 := hz.mp (by omega)
      simp [this]
    · intro h
      have : length.toNat % 5 = 0 := by exact_mod_cast h
      rw [hz.mpr this]

/-- C10, witness at `length = 9` (`q = 1`, `r = 4`): nine progress lines. -/
theorem progress_count_formula_witness :
    (5 : Int) ≤ 9 ∧ (9 : Int) ≤ (([1, 2, 3, 4, 5, 6, 7, 8, 9] : List ℚ).length : Int) ∧
    ∃ run, my_function2 [1, 2, 3, 4, 5, 6, 7, 8, 9] 9 = .ok run ∧
      (run.progress.length : Int) =
        5 + ⌈(((9 : Int).tmod 5 : Int) : ℚ) / (((9 : Int).tdiv 5 : Int) : ℚ)⌉ ∧
      5 ≤ run.progress.length ∧ run.progress.length ≤ 9 ∧
      (run.progress.length = 5 ↔ (5 : Int) ∣ 9) ∧
      run.progress.head? = some ⟨0, 0⟩ :=
  ⟨by decide, by decide,
    progress_count_formula [1, 2, 3, 4, 5, 6, 7, 8, 9] 9 (by decide) (by decide)⟩

end Example
